import Mathlib

set_option linter.unusedVariables false

/-! # Verification of the VPK directory-tree reader

A shallow embedding of `src/lib.rs` (crate `vpk`): the header parser
`DirReader::new`, the header accessors, and the tree-walking iterator
`DirReader::next`.  Bytes are `Nat`s, streams are `List Nat` consumed from
the front, and Rust strings are modelled by their UTF-8 byte sequences
(the source never decodes them beyond a whole-buffer UTF-8 check and
byte-indexed slicing). -/

/-- `DirEntry` (src/lib.rs lines 10-18); `file: String` is modelled as its
UTF-8 byte sequence, since the Rust code builds it by byte-level pushes. -/
structure DirEntry where
  file : List Nat
  crc : Nat
  preload_data : List Nat
  archive_index : Option Nat
  entry_offset : Nat
  entry_length : Nat
deriving DecidableEq

/-- Version-2 header extension (src/lib.rs lines 36-42). -/
structure DirHeader2 where
  file_data_section_size : Nat
  archive_md5_section_size : Nat
  other_md5_section_size : Nat
  signature_section_size : Nat
deriving DecidableEq

/-- Decoded header (src/lib.rs lines 30-34). -/
structure DirHeader where
  tree_size : Nat
  header_v2 : Option DirHeader2
deriving DecidableEq

/-- The reader state (src/lib.rs lines 21-28).  The owned `BufRead` stream is
modelled by the list of bytes not yet consumed. -/
structure DirReader where
  stream : List Nat
  path_buf : List Nat
  extn_len : Nat
  dir_len : Nat
  bytes_read : Nat
  header : DirHeader
deriving DecidableEq

/-- The `io::Error` values the reader can produce.  `outOfFuel` is an
artifact of the fuelled loop below and is unreachable from `next`. -/
inductive VpkErr where
  | invalidSignature (found : Nat)
  | invalidVersion (found : Nat)
  | unexpectedEof
  | invalidUtf8
  | badTerminator (found : Nat)
  | outOfFuel
deriving DecidableEq

/-- One pull of the iterator: end of sequence (`None`), a record
(`Some(Ok(_))`), a decode error (`Some(Err(_))`), or a Rust panic raised by
string slicing at a non-character boundary (src/lib.rs lines 140-142). -/
inductive NextRes where
  | eos
  | ok (e : DirEntry)
  | err (e : VpkErr)
  | panicked
deriving DecidableEq

/-- `byteorder::ReadBytesExt::read_u16::<LittleEndian>`: two bytes, little
endian; fails with an EOF error when fewer than two bytes remain. -/
def readU16 (s : List Nat) : Except VpkErr (Nat × List Nat) :=
  match s with
  | a :: b :: rest => .ok (a + 256 * b, rest)
  | _ => .error .unexpectedEof

/-- `read_u32::<LittleEndian>`: four bytes, little endian. -/
def readU32 (s : List Nat) : Except VpkErr (Nat × List Nat) :=
  match s with
  | a :: b :: c :: d :: rest =>
      .ok (a + 256 * b + 65536 * c + 16777216 * d, rest)
  | _ => .error .unexpectedEof

/-- `DirReader::new` (src/lib.rs lines 46-80).  Returns the constructed reader
or the construction error, paired with the not-yet-consumed remainder of the
input stream (so that theorems can speak about how many bytes were consumed). -/
def new (stream : List Nat) : (Except VpkErr DirReader) × List Nat :=
  match readU32 stream with
  | .error e => (.error e, stream)
  | .ok (sig, s1) =>
    if sig = 0x55aa1234 then
      match readU32 s1 with
      | .error e => (.error e, s1)
      | .ok (version, s2) =>
        if version = 1 ∨ version = 2 then
          match readU32 s2 with
          | .error e => (.error e, s2)
          | .ok (tree_size, s3) =>
            if version = 1 then
              (.ok ⟨s3, [], 0, 0, 0, ⟨tree_size, none⟩⟩, s3)
            else
              match readU32 s3 with
              | .error e => (.error e, s3)
              | .ok (fd, s4) =>
                match readU32 s4 with
                | .error e => (.error e, s4)
                | .ok (am, s5) =>
                  match readU32 s5 with
                  | .error e => (.error e, s5)
                  | .ok (om, s6) =>
                    match readU32 s6 with
                    | .error e => (.error e, s6)
                    | .ok (sg, s7) =>
                      (.ok ⟨s7, [], 0, 0, 0,
                            ⟨tree_size, some ⟨fd, am, om, sg⟩⟩⟩, s7)
        else (.error (.invalidVersion version), s2)
    else (.error (.invalidSignature sig), s1)

/-- `DirReader::tree_size` (src/lib.rs lines 84-86). -/
def DirReader.tree_size (s : DirReader) : Nat := s.header.tree_size

/-- `DirReader::data_offset` (src/lib.rs lines 90-93):
`12 + 16 * header_v2.is_some() + tree_size`. -/
def DirReader.data_offset (s : DirReader) : Nat :=
  12 + 16 * (if s.header.header_v2.isSome then 1 else 0) + s.tree_size

/-- `DirReader::data_len` (src/lib.rs lines 97-99). -/
def DirReader.data_len (s : DirReader) : Option Nat :=
  s.header.header_v2.map (fun h => h.file_data_section_size)

/-- `BufRead::read_until(0, ..)`: bytes up to and including the next `0`,
or everything up to end of stream when no `0` occurs.  Returns the bytes read
(these get appended to `path_buf`) and the rest of the stream. -/
def readUntilZero : List Nat → List Nat × List Nat
  | [] => ([], [])
  | b :: rest =>
    if b = 0 then ([0], rest)
    else
      let p := readUntilZero rest
      (b :: p.1, p.2)

/-- The UTF-8 validation automaton underlying `str::from_utf8`: `need`
continuation bytes are still expected, the next one constrained to
`lo..hi` (the admissible range of the byte after a leading `E0`, `ED`,
`F0` or `F4` is narrowed, per RFC 3629). -/
def utf8Run : List Nat → Nat → Nat → Nat → Bool
  | [], need, _, _ => need = 0
  | c :: l, 0, _, _ =>
      if c ≤ 0x7F then utf8Run l 0 0x80 0xBF
      else if c < 0xC2 then false
      else if c ≤ 0xDF then utf8Run l 1 0x80 0xBF
      else if c = 0xE0 then utf8Run l 2 0xA0 0xBF
      else if c = 0xED then utf8Run l 2 0x80 0x9F
      else if c ≤ 0xEF then utf8Run l 2 0x80 0xBF
      else if c = 0xF0 then utf8Run l 3 0x90 0xBF
      else if c = 0xF4 then utf8Run l 3 0x80 0x8F
      else if c ≤ 0xF4 then utf8Run l 3 0x80 0xBF
      else false
  | c :: l, need + 1, lo, hi =>
      if lo ≤ c ∧ c ≤ hi then utf8Run l need 0x80 0xBF else false

/-- Whole-buffer UTF-8 validity, as checked by `str::from_utf8`. -/
def validUtf8 (l : List Nat) : Bool := utf8Run l 0 0x80 0xBF

/-- `str::is_char_boundary`: true at 0 and at the length; otherwise the byte
at that index must not be a UTF-8 continuation byte. -/
def isCharBoundary (buf : List Nat) (i : Nat) : Bool :=
  if i = 0 then true
  else
    match buf[i]? with
    | some c => c < 0x80 || 0xC0 ≤ c
    | none => i = buf.length

/-- The path-building pushes of src/lib.rs lines 144-156, on UTF-8 bytes:
`'/'` is byte 47, `'.'` is byte 46, and the placeholder `" "` is `[32]`. -/
def buildPath (extn path name : List Nat) : List Nat :=
  let fp : List Nat := []
  let fp := if path ≠ [32] then fp ++ path ++ [47] else fp
  let fp := if name ≠ [32] then fp ++ name else fp
  let fp := if extn ≠ [32] then fp ++ [46] ++ extn else fp
  fp

/-- The fixed-layout entry record decode of src/lib.rs lines 167-191: crc,
preload byte count, archive index (0x7fff means `None`), offset, length, the
0xffff terminator, then the preload bytes.  Returns the outcome, the remaining
stream, and the byte count added to `bytes_read` (`preload_bytes + 18`,
added only on success). -/
def readDirEntry (fp : List Nat) (s0 : List Nat) :
    (Except VpkErr DirEntry) × List Nat × Nat :=
  match readU32 s0 with
  | .error e => (.error e, s0, 0)
  | .ok (crc, s1) =>
    match readU16 s1 with
    | .error e => (.error e, s1, 0)
    | .ok (preload_bytes, s2) =>
      match readU16 s2 with
      | .error e => (.error e, s2, 0)
      | .ok (ai, s3) =>
        let archive_index : Option Nat := if ai = 0x7fff then none else some ai
        match readU32 s3 with
        | .error e => (.error e, s3, 0)
        | .ok (entry_offset, s4) =>
          match readU32 s4 with
          | .error e => (.error e, s4, 0)
          | .ok (entry_length, s5) =>
            match readU16 s5 with
            | .error e => (.error e, s5, 0)
            | .ok (term, s6) =>
              if term = 0xffff then
                if preload_bytes ≤ s6.length then
                  (.ok ⟨fp, crc, s6.take preload_bytes, archive_index,
                        entry_offset, entry_length⟩,
                   s6.drop preload_bytes, preload_bytes + 18)
                else (.error .unexpectedEof, s6, 0)
              else (.error (.badTerminator term), s6, 0)

/-- The `else` arm of the token classification (src/lib.rs lines 133-194):
the token just read completed a file name, so slice the buffer into
extension, directory and name, build the path and decode the entry record.
`buf` is the token buffer after the terminator was popped, `rest` the stream
after the token, `br` the already-updated `bytes_read`. -/
def recordStep (s : DirReader) (buf rest : List Nat) (br : Nat) :
    NextRes × DirReader :=
  let e := s.extn_len
  let d := s.extn_len + s.dir_len
  if validUtf8 buf then
    if isCharBoundary buf e && isCharBoundary buf d then
      let fp := buildPath (buf.take e) ((buf.take d).drop e) (buf.drop d)
      match readDirEntry fp rest with
      | (.ok entry, rest', cnt) =>
          (.ok entry, { s with stream := rest', path_buf := buf.take d,
                               bytes_read := br + cnt })
      | (.error er, rest', _) =>
          (.err er, { s with stream := rest', path_buf := buf,
                             bytes_read := br })
    else (.panicked, { s with stream := rest, path_buf := buf,
                              bytes_read := br })
  else (.err .invalidUtf8, { s with stream := rest, path_buf := buf,
                                    bytes_read := br })

/-- One iteration of the `loop` in `DirReader::next` (src/lib.rs lines
105-199): read a token, then either return a result (`Sum.inl`) or continue
with an updated state (`Sum.inr`).  The branches mirror the source's match
arms in order: `Ok(_) if bytes_read == tree_size`, `Ok(0)`, `Ok(1)`,
`Ok(len)`; the in-memory stream itself never raises the `Err` arm. -/
def nextStep (s : DirReader) : Sum (NextRes × DirReader) DirReader :=
  let tk := (readUntilZero s.stream).1
  let rest := (readUntilZero s.stream).2
  let buf := s.path_buf ++ tk
  if s.bytes_read = s.header.tree_size then
    .inl (.eos, { s with stream := rest, path_buf := buf })
  else if tk.length = 0 then
    .inl (.eos, { s with stream := rest, path_buf := buf })
  else if tk.length = 1 then
    if 0 < s.dir_len then
      .inr { s with stream := rest, path_buf := buf.take s.extn_len,
                    dir_len := 0, bytes_read := s.bytes_read + 1 }
    else if 0 < s.extn_len then
      .inr { s with stream := rest, path_buf := [], extn_len := 0,
                    bytes_read := s.bytes_read + 1 }
    else
      .inl (.eos, { s with stream := rest, path_buf := buf,
                           bytes_read := s.bytes_read + 1 })
  else
    let len := tk.length - 1
    let buf2 := buf.dropLast
    let br := s.bytes_read + tk.length
    if s.extn_len = 0 then
      .inr { s with stream := rest, path_buf := buf2, extn_len := len,
                    bytes_read := br }
    else if s.dir_len = 0 then
      .inr { s with stream := rest, path_buf := buf2, dir_len := len,
                    bytes_read := br }
    else
      .inl (recordStep s buf2 rest br)

/-- The `loop` of `DirReader::next`, with explicit fuel so that the
definition is structurally recursive and evaluates inside the kernel.  Each
continuing iteration consumes at least one stream byte, so
`stream.length + 1` fuel always suffices (`nextLoop_fuel` below). -/
def nextLoop : Nat → DirReader → NextRes × DirReader
  | 0, s => (.err .outOfFuel, s)
  | fuel + 1, s =>
    match nextStep s with
    | .inl r => r
    | .inr s' => nextLoop fuel s'

/-- `DirReader::next` (src/lib.rs lines 104-200). -/
def next (s : DirReader) : NextRes × DirReader :=
  nextLoop (s.stream.length + 1) s

/-- The results of `n` successive pulls, with the state left afterwards. -/
def runN : DirReader → Nat → List NextRes × DirReader
  | s, 0 => ([], s)
  | s, n + 1 =>
    let r := next s
    let t := runN r.2 n
    (r.1 :: t.1, t.2)

/-- Modelled from the spec: section 6's path join grammar
`(directory != " " ? directory + "/" : "") + (name != " " ? name : "")
 + (extension != " " ? "." + extension : "")`, used as the specification
side of claim C3. -/
def specJoin (extn dir name : List Nat) : List Nat :=
  (if dir ≠ [32] then dir ++ [47] else []) ++
  (if name ≠ [32] then name else []) ++
  (if extn ≠ [32] then [46] ++ extn else [])

/-- UTF-8 bytes of an ASCII string literal (code point = byte). -/
def asciiBytes (s : String) : List Nat := s.data.map (fun c => c.toNat)

/-! ## A synthetic well-formed tree section (section 6 grammar)

Used for claim C2's round trip: a structured tree, its on-disk encoding,
and the flat record sequence it denotes. -/

/-- Two little-endian bytes of a 16-bit value. -/
def u16bytes (v : Nat) : List Nat := [v % 256, v / 256 % 256]

/-- Four little-endian bytes of a 32-bit value. -/
def u32bytes (v : Nat) : List Nat :=
  [v % 256, v / 256 % 256, v / 65536 % 256, v / 16777216 % 256]

/-- One file of a synthetic tree: its name token, the entry-record fields,
and the inline preload bytes. -/
structure FileEnc where
  name : List Nat
  crc : Nat
  archive_index : Nat
  entry_offset : Nat
  entry_length : Nat
  preload : List Nat
deriving DecidableEq

/-- One directory block of a synthetic tree. -/
structure DirBlock where
  dir : List Nat
  files : List FileEnc
deriving DecidableEq

/-- One extension group of a synthetic tree. -/
structure ExtGroup where
  extn : List Nat
  dirs : List DirBlock
deriving DecidableEq

/-- The 18-byte entry record of a file followed by its preload bytes
(section 6 layout, terminator 0xffff). -/
def encEntry (f : FileEnc) : List Nat :=
  u32bytes f.crc ++ u16bytes f.preload.length ++ u16bytes f.archive_index ++
  u32bytes f.entry_offset ++ u32bytes f.entry_length ++ u16bytes 0xffff ++
  f.preload

/-- `<name>\0 <entry-record>`. -/
def encFile (f : FileEnc) : List Nat := f.name ++ [0] ++ encEntry f

/-- `<directory>\0 (<name>\0 <entry-record>)+ \0`. -/
def encBlock (b : DirBlock) : List Nat :=
  b.dir ++ [0] ++ (b.files.map encFile).flatten ++ [0]

/-- `<extension>\0 <block>+ \0`. -/
def encGroup (g : ExtGroup) : List Nat :=
  g.extn ++ [0] ++ (g.dirs.map encBlock).flatten ++ [0]

/-- The whole tree section: the groups followed by the final terminator. -/
def encTree (t : List ExtGroup) : List Nat := (t.map encGroup).flatten ++ [0]

/-- A version-1 header with the given tree size. -/
def headerV1 (n : Nat) : List Nat :=
  u32bytes 0x55aa1234 ++ u32bytes 1 ++ u32bytes n

deriving instance DecidableEq for Except

/-- A legal token: non-empty, free of NUL bytes, valid UTF-8. -/
def goodToken (tk : List Nat) : Prop :=
  tk ≠ [] ∧ ¬ (0 : Nat) ∈ tk ∧ validUtf8 tk = true

/-- Field bounds making a synthetic file's encoding decode to itself. -/
def goodFile (f : FileEnc) : Prop :=
  goodToken f.name ∧ f.crc < 4294967296 ∧ f.archive_index < 65536 ∧
  f.entry_offset < 4294967296 ∧ f.entry_length < 4294967296 ∧
  f.preload.length < 65536

/-- A well-formed directory block: legal directory token, at least one file. -/
def goodBlock (b : DirBlock) : Prop :=
  goodToken b.dir ∧ b.files ≠ [] ∧ ∀ f ∈ b.files, goodFile f

/-- A well-formed extension group: legal token, at least one block. -/
def goodGroup (g : ExtGroup) : Prop :=
  goodToken g.extn ∧ g.dirs ≠ [] ∧ ∀ b ∈ g.dirs, goodBlock b

/-- A well-formed synthetic tree. -/
def goodTree (t : List ExtGroup) : Prop := ∀ g ∈ t, goodGroup g

instance goodToken.dec : DecidablePred goodToken := fun tk => by
  unfold goodToken
  infer_instance

instance goodFile.dec : DecidablePred goodFile := fun f => by
  unfold goodFile
  infer_instance

instance goodBlock.dec : DecidablePred goodBlock := fun b => by
  unfold goodBlock
  infer_instance

instance goodGroup.dec : DecidablePred goodGroup := fun g => by
  unfold goodGroup
  infer_instance

instance goodTree.dec : DecidablePred goodTree := fun t => by
  unfold goodTree
  infer_instance

/-- The `DirEntry` a file should decode to. -/
def mkEntry (extn dir : List Nat) (f : FileEnc) : DirEntry :=
  ⟨buildPath extn dir f.name, f.crc, f.preload,
   (if f.archive_index = 0x7fff then none else some f.archive_index),
   f.entry_offset, f.entry_length⟩

/-- The records of one directory block, in on-disk order. -/
def expBlockRecords (extn : List Nat) (b : DirBlock) : List DirEntry :=
  b.files.map (mkEntry extn b.dir)

/-- The records of one extension group, in on-disk order. -/
def expGroupRecords (g : ExtGroup) : List DirEntry :=
  (g.dirs.map (expBlockRecords g.extn)).flatten

/-- All records of a synthetic tree, in on-disk order. -/
def expectedRecords (t : List ExtGroup) : List DirEntry :=
  (t.map expGroupRecords).flatten

/-- The number of files in a synthetic tree. -/
def numFiles (t : List ExtGroup) : Nat := (expectedRecords t).length

/-- A pull-boundary position of the iterator inside a well-formed tree:
either at the top level with some groups left, or inside a group and block
with the extension and directory tokens captured. -/
inductive Pos where
  | top (gs : List ExtGroup)
  | inside (extn dir : List Nat) (fs : List FileEnc) (bs : List DirBlock)
      (gs : List ExtGroup)

/-- The tree-section bytes still unconsumed at a position. -/
def posBytes : Pos → List Nat
  | .top gs => (gs.map encGroup).flatten ++ [0]
  | .inside _ _ fs bs gs =>
      (fs.map encFile).flatten ++ [0] ++ (bs.map encBlock).flatten ++ [0] ++
      (gs.map encGroup).flatten ++ [0]

/-- The records still to be produced from a position, in order. -/
def posRecords : Pos → List DirEntry
  | .top gs => (gs.map expGroupRecords).flatten
  | .inside extn dir fs bs gs =>
      fs.map (mkEntry extn dir) ++ (bs.map (expBlockRecords extn)).flatten ++
      (gs.map expGroupRecords).flatten

/-- Well-formedness of everything still reachable from a position. -/
def posGood : Pos → Prop
  | .top gs => ∀ g ∈ gs, goodGroup g
  | .inside extn dir fs bs gs =>
      goodToken extn ∧ goodToken dir ∧ (∀ f ∈ fs, goodFile f) ∧
      (∀ b ∈ bs, goodBlock b) ∧ ∀ g ∈ gs, goodGroup g

/-- The token buffer contents at a position. -/
def posBuf : Pos → List Nat
  | .top _ => []
  | .inside extn dir _ _ _ => extn ++ dir

/-- The captured extension length at a position. -/
def posELen : Pos → Nat
  | .top _ => 0
  | .inside extn _ _ _ _ => extn.length

/-- The captured directory length at a position. -/
def posDLen : Pos → Nat
  | .top _ => 0
  | .inside _ dir _ _ _ => dir.length

/-- The full reader state at a position: the remaining tree bytes followed by
`trailing` bytes after the tree section, `B` bytes already counted. -/
def posState (p : Pos) (trailing : List Nat) (B : Nat) (h : DirHeader) :
    DirReader :=
  ⟨posBytes p ++ trailing, posBuf p, posELen p, posDLen p, B, h⟩

/-! ## Concrete inputs for counterexamples and witnesses -/

/-- An 18-byte entry record: crc 1, no preload, archive index 0x7fff,
offset 0, length 0, terminator 0xffff. -/
def entryOkBytes : List Nat :=
  [1,0,0,0, 0,0, 0xff,0x7f, 0,0,0,0, 0,0,0,0, 0xff,0xff]

/-- C1: version-1 header with `tree_size = 2`, but the stream continues with
the 4 bytes `[97, 98, 99, 0]`; only the first 2 belong to the tree section. -/
def c1stream : List Nat :=
  [0x34, 0x12, 0xaa, 0x55, 1, 0, 0, 0, 2, 0, 0, 0] ++ [97, 98, 99, 0]

/-- The reader produced by `new c1stream`. -/
def c1s0 : DirReader := ⟨[97, 98, 99, 0], [], 0, 0, 0, ⟨2, none⟩⟩

/-- C4: a tree whose extension, directory and name tokens are all the
placeholder `" "`, followed by a well-formed entry record. -/
def c4tree : List Nat :=
  [32, 0] ++ [32, 0] ++ [32, 0] ++ entryOkBytes ++ [0, 0, 0]

/-- C4 full stream: version-1 header (`tree_size = 27`) plus `c4tree`. -/
def c4stream : List Nat :=
  [0x34, 0x12, 0xaa, 0x55, 1, 0, 0, 0, 27, 0, 0, 0] ++ c4tree

/-- The reader produced by `new c4stream`. -/
def c4s0 : DirReader := ⟨c4tree, [], 0, 0, 0, ⟨27, none⟩⟩

/-- The record the first pull on `c4s0` produces: its path is empty. -/
def c4rec : DirEntry := ⟨[], 1, [], none, 0, 0⟩

/-- C6: a tree section that opens with the final terminator (so the first
pull reports end of sequence) but still contains a full group afterwards,
inside the declared `tree_size = 28`. -/
def c6tree : List Nat :=
  [0] ++ [101, 0] ++ [100, 0] ++ [110, 0] ++ entryOkBytes ++ [0, 0, 0]

/-- C6 full stream: version-1 header (`tree_size = 28`) plus `c6tree`. -/
def c6stream : List Nat :=
  [0x34, 0x12, 0xaa, 0x55, 1, 0, 0, 0, 28, 0, 0, 0] ++ c6tree

/-- The reader produced by `new c6stream`. -/
def c6s0 : DirReader := ⟨c6tree, [], 0, 0, 0, ⟨28, none⟩⟩

/-- The record the second pull on `c6s0` produces (the stale NUL byte left in
`path_buf` by the terminating pull even ends up inside the path). -/
def c6rec : DirEntry := ⟨[101, 47, 100, 110, 46, 0], 1, [], none, 0, 0⟩

/-- C10: tokens `[0xC3]`, `[0xA9]`, `[0x78]`: the concatenated buffer
`[0xC3, 0xA9, 0x78]` is valid UTF-8 (two-byte character then `'x'`), but byte
index 1 — the extension/directory cut — is inside the character. -/
def c10tree : List Nat :=
  [0xC3, 0] ++ [0xA9, 0] ++ [0x78, 0] ++ entryOkBytes ++ [0, 0, 0]

/-- C10 full stream: version-1 header (`tree_size = 27`) plus `c10tree`. -/
def c10stream : List Nat :=
  [0x34, 0x12, 0xaa, 0x55, 1, 0, 0, 0, 27, 0, 0, 0] ++ c10tree

/-- The reader produced by `new c10stream`. -/
def c10s0 : DirReader := ⟨c10tree, [], 0, 0, 0, ⟨27, none⟩⟩

/-- A two-group, two-directory synthetic tree for the round-trip witness. -/
def sampleTree : List ExtGroup :=
  [⟨asciiBytes "txt", [⟨asciiBytes " ",
      [⟨asciiBytes "readme", 1, 0x7fff, 0, 4, [7, 7]⟩]⟩]⟩,
   ⟨asciiBytes "bsp", [⟨asciiBytes "maps",
      [⟨asciiBytes "de_test", 2, 3, 16, 32, []⟩]⟩]⟩]

/-- A reader state sitting exactly at the `tree_size` boundary
(`bytes_read = tree_size = 7`) with trailing stream bytes. -/
def cBoundaryA : DirReader := ⟨[5, 5], [3], 1, 0, 7, ⟨7, none⟩⟩

/-- Another boundary state (`bytes_read = tree_size = 9`), used to witness
that repeated pulls keep signalling end of sequence. -/
def cBoundaryB : DirReader := ⟨[1, 0, 2], [], 0, 0, 9, ⟨9, none⟩⟩

/-- A reader about to read the name token "de_test" with extension "bsp" and
directory "maps" captured, the entry record following. -/
def c3state : DirReader :=
  ⟨asciiBytes "de_test" ++ 0 :: entryOkBytes,
   asciiBytes "bsp" ++ asciiBytes "maps", 3, 4, 0, ⟨999, none⟩⟩

/-- The record pulled from `c3state`. -/
def c3rec : DirEntry := ⟨asciiBytes "maps/de_test.bsp", 1, [], none, 0, 0⟩

/-- The state left after pulling from `c3state`. -/
def c3end : DirReader :=
  ⟨[], asciiBytes "bsp" ++ asciiBytes "maps", 3, 4, 26, ⟨999, none⟩⟩

/-- An 18-byte entry record with crc 7 and archive index 5. -/
def c9bytes : List Nat :=
  [7,0,0,0, 0,0, 5,0, 0,0,0,0, 0,0,0,0, 0xff, 0xff]

/-- The record `c9bytes` decodes to. -/
def c9rec : DirEntry := ⟨[], 7, [], some 5, 0, 0⟩

/-! ## Basic lemmas about the token reader and the fuelled loop -/

theorem readUntilZero_len (l : List Nat) :
    (readUntilZero l).1.length + (readUntilZero l).2.length = l.length := by
  induction l with
  | nil => simp [readUntilZero]
  | cons b rest ih =>
    by_cases hb : b = 0
    · simp [readUntilZero, hb]
      omega
    · simp only [readUntilZero, if_neg hb, List.length_cons]
      omega

theorem readUntilZero_append (tk σ : List Nat) (h0 : ¬ (0 : Nat) ∈ tk) :
    readUntilZero (tk ++ 0 :: σ) = (tk ++ [0], σ) := by
  induction tk with
  | nil => simp [readUntilZero]
  | cons b rest ih =>
    simp only [List.mem_cons, not_or] at h0
    have hb : b ≠ 0 := fun hh => h0.1 hh.symm
    simp [readUntilZero, hb, ih h0.2]

/-- A continuing iteration always consumes at least one stream byte. -/
theorem nextStep_inr_shrinks (s s' : DirReader) (h : nextStep s = .inr s') :
    s'.stream.length < s.stream.length := by
  have hlen := readUntilZero_len s.stream
  simp only [nextStep] at h
  by_cases h1 : s.bytes_read = s.header.tree_size
  · rw [if_pos h1] at h
    cases h
  · rw [if_neg h1] at h
    by_cases h2 : (readUntilZero s.stream).1.length = 0
    · rw [if_pos h2] at h
      cases h
    · rw [if_neg h2] at h
      by_cases h3 : (readUntilZero s.stream).1.length = 1
      · rw [if_pos h3] at h
        by_cases h4 : 0 < s.dir_len
        · rw [if_pos h4] at h
          cases h
          show (readUntilZero s.stream).2.length < s.stream.length
          omega
        · rw [if_neg h4] at h
          by_cases h5 : 0 < s.extn_len
          · rw [if_pos h5] at h
            cases h
            show (readUntilZero s.stream).2.length < s.stream.length
            omega
          · rw [if_neg h5] at h
            cases h
      · rw [if_neg h3] at h
        by_cases h6 : s.extn_len = 0
        · rw [if_pos h6] at h
          cases h
          show (readUntilZero s.stream).2.length < s.stream.length
          omega
        · rw [if_neg h6] at h
          by_cases h7 : s.dir_len = 0
          · rw [if_pos h7] at h
            cases h
            show (readUntilZero s.stream).2.length < s.stream.length
            omega
          · rw [if_neg h7] at h
            cases h

theorem nextLoop_fuel (f g : Nat) (s : DirReader)
    (hf : s.stream.length < f) (hg : s.stream.length < g) :
    nextLoop f s = nextLoop g s := by
  induction f generalizing g s with
  | zero => omega
  | succ f' ih =>
    cases g with
    | zero => omega
    | succ g' =>
      simp only [nextLoop]
      cases hstep : nextStep s with
      | inl r => rfl
      | inr s' =>
        have := nextStep_inr_shrinks s s' hstep
        exact ih g' s' (by omega) (by omega)

theorem next_inl (s : DirReader) (r : NextRes × DirReader)
    (h : nextStep s = .inl r) : next s = r := by
  simp [next, nextLoop, h]

theorem next_inr (s s' : DirReader) (h : nextStep s = .inr s') :
    next s = next s' := by
  have hs := nextStep_inr_shrinks s s' h
  simp only [next, nextLoop, h]
  exact nextLoop_fuel s.stream.length (s'.stream.length + 1) s' hs (by omega)

/-! ## Characterizing one loop iteration on each kind of token -/

/-- Empty token with nothing captured: the final terminator, end of
sequence. -/
theorem nextStep_final (σ pb : List Nat) (B : Nat) (h : DirHeader)
    (hB : B ≠ h.tree_size) :
    nextStep ⟨0 :: σ, pb, 0, 0, B, h⟩ =
      .inl (.eos, ⟨σ, pb ++ [0], 0, 0, B + 1, h⟩) := by
  simp [nextStep, readUntilZero, hB]

/-- Empty token with a directory captured: pop back to the extension. -/
theorem nextStep_pop_dir (σ pb : List Nat) (el dl B : Nat) (h : DirHeader)
    (hdl : 0 < dl) (hB : B ≠ h.tree_size) :
    nextStep ⟨0 :: σ, pb, el, dl, B, h⟩ =
      .inr ⟨σ, (pb ++ [0]).take el, el, 0, B + 1, h⟩ := by
  simp [nextStep, readUntilZero, hB, hdl, Nat.pos_iff_ne_zero.mp hdl]

/-- Empty token with only an extension captured: clear it. -/
theorem nextStep_pop_extn (σ pb : List Nat) (el B : Nat) (h : DirHeader)
    (hel : 0 < el) (hB : B ≠ h.tree_size) :
    nextStep ⟨0 :: σ, pb, el, 0, B, h⟩ = .inr ⟨σ, [], 0, 0, B + 1, h⟩ := by
  simp [nextStep, readUntilZero, hB, hel]

/-- Non-empty token with no extension captured: it becomes the extension. -/
theorem nextStep_capture_extn (tk σ pb : List Nat) (dl B : Nat) (h : DirHeader)
    (htk : tk ≠ []) (h0 : ¬ (0 : Nat) ∈ tk) (hB : B ≠ h.tree_size) :
    nextStep ⟨tk ++ 0 :: σ, pb, 0, dl, B, h⟩ =
      .inr ⟨σ, pb ++ tk, tk.length, dl, B + (tk.length + 1), h⟩ := by
  have hr := readUntilZero_append tk σ h0
  simp [nextStep, hr, hB, htk, ← List.append_assoc, List.dropLast_concat]

/-- Non-empty token with an extension but no directory captured: it becomes
the directory. -/
theorem nextStep_capture_dir (tk σ pb : List Nat) (el B : Nat) (h : DirHeader)
    (htk : tk ≠ []) (h0 : ¬ (0 : Nat) ∈ tk) (hel : el ≠ 0)
    (hB : B ≠ h.tree_size) :
    nextStep ⟨tk ++ 0 :: σ, pb, el, 0, B, h⟩ =
      .inr ⟨σ, pb ++ tk, el, tk.length, B + (tk.length + 1), h⟩ := by
  have hr := readUntilZero_append tk σ h0
  simp [nextStep, hr, hB, htk, hel, ← List.append_assoc, List.dropLast_concat]

/-- Non-empty token with extension and directory captured: it is a file name,
so the iteration returns what `recordStep` produces. -/
theorem nextStep_record (tk σ pb : List Nat) (el dl B : Nat) (h : DirHeader)
    (htk : tk ≠ []) (h0 : ¬ (0 : Nat) ∈ tk) (hel : el ≠ 0) (hdl : dl ≠ 0)
    (hB : B ≠ h.tree_size) :
    nextStep ⟨tk ++ 0 :: σ, pb, el, dl, B, h⟩ =
      .inl (recordStep ⟨tk ++ 0 :: σ, pb, el, dl, B, h⟩ (pb ++ tk) σ
              (B + (tk.length + 1))) := by
  have hr := readUntilZero_append tk σ h0
  simp [nextStep, hr, hB, htk, hel, hdl, ← List.append_assoc,
        List.dropLast_concat]

/-! ## UTF-8 validity lemmas -/

theorem utf8Run_zero_bounds (l : List Nat) (lo hi lo' hi' : Nat) :
    utf8Run l 0 lo hi = utf8Run l 0 lo' hi' := by
  cases l with
  | nil => rfl
  | cons c t => rfl

theorem utf8Run_append (a bb : List Nat) :
    ∀ (need lo hi : Nat), utf8Run a need lo hi = true →
      validUtf8 bb = true → utf8Run (a ++ bb) need lo hi = true := by
  induction a with
  | nil =>
    intro need lo hi ha hb
    simp only [utf8Run, decide_eq_true_eq] at ha
    subst ha
    simpa [validUtf8, utf8Run_zero_bounds bb lo hi 0x80 0xBF] using hb
  | cons c t ih =>
    intro need lo hi ha hb
    cases need with
    | zero =>
      simp only [List.cons_append, utf8Run] at ha ⊢
      by_cases h1 : c ≤ 0x7F
      · rw [if_pos h1] at ha ⊢
        exact ih _ _ _ ha hb
      · rw [if_neg h1] at ha ⊢
        by_cases h2 : c < 0xC2
        · rw [if_pos h2] at ha
          cases ha
        · rw [if_neg h2] at ha ⊢
          by_cases h3 : c ≤ 0xDF
          · rw [if_pos h3] at ha ⊢
            exact ih _ _ _ ha hb
          · rw [if_neg h3] at ha ⊢
            by_cases h4 : c = 0xE0
            · rw [if_pos h4] at ha ⊢
              exact ih _ _ _ ha hb
            · rw [if_neg h4] at ha ⊢
              by_cases h5 : c = 0xED
              · rw [if_pos h5] at ha ⊢
                exact ih _ _ _ ha hb
              · rw [if_neg h5] at ha ⊢
                by_cases h6 : c ≤ 0xEF
                · rw [if_pos h6] at ha ⊢
                  exact ih _ _ _ ha hb
                · rw [if_neg h6] at ha ⊢
                  by_cases h7 : c = 0xF0
                  · rw [if_pos h7] at ha ⊢
                    exact ih _ _ _ ha hb
                  · rw [if_neg h7] at ha ⊢
                    by_cases h8 : c = 0xF4
                    · rw [if_pos h8] at ha ⊢
                      exact ih _ _ _ ha hb
                    · rw [if_neg h8] at ha ⊢
                      by_cases h9 : c ≤ 0xF4
                      · rw [if_pos h9] at ha ⊢
                        exact ih _ _ _ ha hb
                      · rw [if_neg h9] at ha
                        cases ha
    | succ n =>
      simp only [List.cons_append, utf8Run] at ha ⊢
      by_cases h1 : lo ≤ c ∧ c ≤ hi
      · rw [if_pos h1] at ha ⊢
        exact ih _ _ _ ha hb
      · rw [if_neg h1] at ha
        cases ha

/-- Concatenating two valid UTF-8 buffers yields a valid buffer. -/
theorem validUtf8_append (a bb : List Nat) (ha : validUtf8 a = true)
    (hb : validUtf8 bb = true) : validUtf8 (a ++ bb) = true :=
  utf8Run_append a bb 0 0x80 0xBF ha hb

/-- The first byte of a valid buffer is never a continuation byte. -/
theorem validUtf8_head (b : Nat) (l : List Nat)
    (hv : validUtf8 (b :: l) = true) : b < 0x80 ∨ 0xC0 ≤ b := by
  simp only [validUtf8, utf8Run] at hv
  by_cases h1 : b ≤ 0x7F
  · left
    omega
  · rw [if_neg h1] at hv
    by_cases h2 : b < 0xC2
    · rw [if_pos h2] at hv
      cases hv
    · right
      omega

/-! ## The record-producing pull -/

/-- A cut placed at the start of a token whose leading byte is not a
continuation byte is a character boundary. -/
theorem isCharBoundary_cut (l : List Nat) (c : Nat) (r : List Nat)
    (hc : c < 0x80 ∨ 0xC0 ≤ c) :
    isCharBoundary (l ++ c :: r) l.length = true := by
  unfold isCharBoundary
  by_cases h0 : l.length = 0
  · simp [h0]
  · rw [if_neg h0]
    have hg : (l ++ c :: r)[l.length]? = some c := by
      rw [List.getElem?_append_right (le_refl l.length)]
      simp
    rw [hg]
    rcases hc with h | h
    · simp [h]
    · simp only [Bool.or_eq_true, decide_eq_true_eq]
      right
      omega

/-- A pull whose stream opens with a name token while extension and
directory are captured: the result is read off `readDirEntry`. -/
theorem next_record (extn dir name σ : List Nat) (B : Nat) (h : DirHeader)
    (hx : goodToken extn) (hd : goodToken dir) (hn : goodToken name)
    (hB : B ≠ h.tree_size) :
    next ⟨name ++ 0 :: σ, extn ++ dir, extn.length, dir.length, B, h⟩ =
      match readDirEntry (buildPath extn dir name) σ with
      | (.ok entry, rest', cnt) =>
          (.ok entry, ⟨rest', extn ++ dir, extn.length, dir.length,
                       B + (name.length + 1) + cnt, h⟩)
      | (.error er, rest', _) =>
          (.err er, ⟨rest', extn ++ dir ++ name, extn.length, dir.length,
                     B + (name.length + 1), h⟩) := by
  obtain ⟨hxne, hx0, hxv⟩ := hx
  obtain ⟨hdne, hd0, hdv⟩ := hd
  obtain ⟨hnne, hn0, hnv⟩ := hn
  have hel : extn.length ≠ 0 := fun hh => hxne (List.length_eq_zero.mp hh)
  have hdl : dir.length ≠ 0 := fun hh => hdne (List.length_eq_zero.mp hh)
  have hstep := nextStep_record name σ (extn ++ dir) extn.length dir.length B h
    hnne hn0 hel hdl hB
  rw [next_inl _ _ hstep]
  obtain ⟨d0, dtl, hdir⟩ := List.exists_cons_of_ne_nil hdne
  obtain ⟨n0, ntl, hname⟩ := List.exists_cons_of_ne_nil hnne
  have hvbuf : validUtf8 ((extn ++ dir) ++ name) = true :=
    validUtf8_append _ _ (validUtf8_append _ _ hxv hdv) hnv
  have hbd1 : isCharBoundary ((extn ++ dir) ++ name) extn.length = true := by
    have : (extn ++ dir) ++ name = extn ++ (d0 :: (dtl ++ name)) := by
      rw [hdir]
      simp
    rw [this]
    apply isCharBoundary_cut
    apply validUtf8_head d0 dtl
    rw [← hdir]
    exact hdv
  have hbd2 : isCharBoundary ((extn ++ dir) ++ name)
      (extn.length + dir.length) = true := by
    have hlen : extn.length + dir.length = (extn ++ dir).length := by simp
    rw [hlen, hname]
    apply isCharBoundary_cut
    apply validUtf8_head n0 ntl
    rw [← hname]
    exact hnv
  have htake1 : ((extn ++ dir) ++ name).take extn.length = extn := by
    rw [List.append_assoc]
    exact List.take_left extn (dir ++ name)
  have htake2 : ((extn ++ dir) ++ name).take (extn.length + dir.length)
      = extn ++ dir := by
    have hlen : extn.length + dir.length = (extn ++ dir).length := by simp
    rw [hlen]
    exact List.take_left (extn ++ dir) name
  have hdrop2 : ((extn ++ dir) ++ name).drop (extn.length + dir.length)
      = name := by
    have hlen : extn.length + dir.length = (extn ++ dir).length := by simp
    rw [hlen]
    exact List.drop_left (extn ++ dir) name
  unfold recordStep
  simp only [hvbuf, hbd1, hbd2, Bool.and_self, if_true, htake1, htake2, hdrop2,
             ite_true, List.drop_left]

/-- Little-endian 16-bit round trip. -/
theorem readU16_bytes (v : Nat) (r : List Nat) (hv : v < 65536) :
    readU16 (u16bytes v ++ r) = .ok (v, r) := by
  simp only [u16bytes, List.cons_append, List.nil_append, readU16,
             Except.ok.injEq, Prod.mk.injEq]
  constructor
  · omega
  · trivial

/-- Little-endian 32-bit round trip. -/
theorem readU32_bytes (v : Nat) (r : List Nat) (hv : v < 4294967296) :
    readU32 (u32bytes v ++ r) = .ok (v, r) := by
  simp only [u32bytes, List.cons_append, List.nil_append, readU32,
             Except.ok.injEq, Prod.mk.injEq]
  constructor
  · omega
  · trivial

/-- Decoding the encoding of a well-formed file's entry record gives back
exactly its fields. -/
theorem readDirEntry_enc (fp : List Nat) (f : FileEnc) (σ : List Nat)
    (hf : goodFile f) :
    readDirEntry fp (encEntry f ++ σ) =
      (.ok ⟨fp, f.crc, f.preload,
            (if f.archive_index = 0x7fff then none else some f.archive_index),
            f.entry_offset, f.entry_length⟩,
       σ, f.preload.length + 18) := by
  obtain ⟨hname, hcrc, hai, hoff, hlen, hpre⟩ := hf
  have h1 : encEntry f ++ σ =
      u32bytes f.crc ++ (u16bytes f.preload.length ++ (u16bytes f.archive_index
        ++ (u32bytes f.entry_offset ++ (u32bytes f.entry_length
        ++ (u16bytes 0xffff ++ (f.preload ++ σ)))))) := by
    simp [encEntry, List.append_assoc]
  simp only [readDirEntry, h1, readU32_bytes _ _ hcrc, readU16_bytes _ _ hpre,
      readU16_bytes _ _ hai, readU32_bytes _ _ hoff, readU32_bytes _ _ hlen,
      readU16_bytes 0xffff (f.preload ++ σ) (by norm_num)]
  simp [List.take_left, List.drop_left]

/-- A pull on a name token followed by a well-formed encoded entry record
produces exactly that record. -/
theorem next_record_enc (extn dir : List Nat) (f : FileEnc) (σ : List Nat)
    (B : Nat) (h : DirHeader) (hx : goodToken extn) (hd : goodToken dir)
    (hf : goodFile f) (hB : B ≠ h.tree_size) :
    next ⟨f.name ++ 0 :: (encEntry f ++ σ), extn ++ dir, extn.length,
          dir.length, B, h⟩ =
      (.ok (mkEntry extn dir f),
       ⟨σ, extn ++ dir, extn.length, dir.length,
        B + (f.name.length + 1) + (f.preload.length + 18), h⟩) := by
  rw [next_record extn dir f.name (encEntry f ++ σ) B h hx hd hf.1 hB,
      readDirEntry_enc _ f σ hf]
  simp [mkEntry]

/-! ## Pulls at the well-formed positions -/

theorem posBytes_pos (p : Pos) : 0 < (posBytes p).length := by
  cases p <;> simp [posBytes]

theorem encEntry_length (f : FileEnc) :
    (encEntry f).length = f.preload.length + 18 := by
  simp [encEntry, u16bytes, u32bytes]

theorem encFile_length (f : FileEnc) :
    (encFile f).length = f.name.length + 1 + (f.preload.length + 18) := by
  simp [encFile, encEntry_length]
  omega

/-- Pulling at the top level with no groups left: the final terminator. -/
theorem pull_top_nil (trailing : List Nat) (B : Nat) (h : DirHeader)
    (hB : B + 1 = h.tree_size) :
    next (posState (.top []) trailing B h) =
      (.eos, ⟨trailing, [0], 0, 0, h.tree_size, h⟩) := by
  have hBne : B ≠ h.tree_size := by omega
  have hstream : posState (.top []) trailing B h =
      ⟨0 :: trailing, [], 0, 0, B, h⟩ := by
    simp [posState, posBytes, posBuf, posELen, posDLen]
  rw [hstream, next_inl _ _ (nextStep_final trailing [] B h hBne)]
  rw [show B + 1 = h.tree_size from hB]
  simp

/-- Pulling inside a block with no files, blocks or groups left: the three
closing terminators end the sequence. -/
theorem pull_inside_end (extn dir : List Nat) (trailing : List Nat) (B : Nat)
    (h : DirHeader) (hx : extn ≠ []) (hd : dir ≠ [])
    (hB : B + 3 = h.tree_size) :
    next (posState (.inside extn dir [] [] []) trailing B h) =
      (.eos, ⟨trailing, [0], 0, 0, h.tree_size, h⟩) := by
  have hel : 0 < extn.length := List.length_pos.mpr hx
  have hdl : 0 < dir.length := List.length_pos.mpr hd
  have hstream : posState (.inside extn dir [] [] []) trailing B h =
      ⟨0 :: 0 :: 0 :: trailing, extn ++ dir, extn.length, dir.length, B, h⟩ := by
    simp [posState, posBytes, posBuf, posELen, posDLen]
  rw [hstream]
  rw [next_inr _ _ (nextStep_pop_dir (0 :: 0 :: trailing) (extn ++ dir)
        extn.length dir.length B h hdl (by omega))]
  have htake : ((extn ++ dir) ++ [0]).take extn.length = extn := by
    rw [List.append_assoc]
    exact List.take_left extn (dir ++ [0])
  rw [htake]
  rw [next_inr _ _ (nextStep_pop_extn (0 :: trailing) extn extn.length
        (B + 1) h hel (by omega))]
  rw [next_inl _ _ (nextStep_final trailing [] (B + 2) h (by omega))]
  rw [show B + 2 + 1 = h.tree_size by omega]
  simp

/-- Pulling inside a block that still has a file: that file's record. -/
theorem pull_inside_file (extn dir : List Nat) (f : FileEnc)
    (fs : List FileEnc) (bs : List DirBlock) (gs : List ExtGroup)
    (trailing : List Nat) (B : Nat) (h : DirHeader)
    (hx : goodToken extn) (hd : goodToken dir) (hf : goodFile f)
    (hB : B + (posBytes (.inside extn dir (f :: fs) bs gs)).length
            = h.tree_size) :
    next (posState (.inside extn dir (f :: fs) bs gs) trailing B h) =
      (.ok (mkEntry extn dir f),
       posState (.inside extn dir fs bs gs) trailing
         (B + (f.name.length + 1) + (f.preload.length + 18)) h) := by
  have hpos := posBytes_pos (.inside extn dir (f :: fs) bs gs)
  have hBne : B ≠ h.tree_size := by omega
  have hstream : posState (.inside extn dir (f :: fs) bs gs) trailing B h =
      ⟨f.name ++ 0 :: (encEntry f ++
          (posBytes (.inside extn dir fs bs gs) ++ trailing)),
       extn ++ dir, extn.length, dir.length, B, h⟩ := by
    simp [posState, posBytes, posBuf, posELen, posDLen, encFile,
          List.append_assoc]
  rw [hstream, next_record_enc extn dir f _ B h hx hd hf hBne]
  simp [posState, posBuf, posELen, posDLen]

/-- Pulling inside a block whose files are exhausted but more blocks remain:
pop the directory, capture the next block's directory, produce its first
file's record. -/
theorem pull_inside_newblock (extn dir : List Nat) (b : DirBlock) (f : FileEnc)
    (fs' : List FileEnc) (bs : List DirBlock) (gs : List ExtGroup)
    (trailing : List Nat) (B : Nat) (h : DirHeader)
    (hx : goodToken extn) (hd : goodToken dir) (hb : goodBlock b)
    (hbf : b.files = f :: fs')
    (hB : B + (posBytes (.inside extn dir [] (b :: bs) gs)).length
            = h.tree_size) :
    next (posState (.inside extn dir [] (b :: bs) gs) trailing B h) =
      (.ok (mkEntry extn b.dir f),
       posState (.inside extn b.dir fs' bs gs) trailing
         (B + 1 + (b.dir.length + 1) + (f.name.length + 1)
            + (f.preload.length + 18)) h) := by
  have hdl : 0 < dir.length := List.length_pos.mpr hd.1
  have hel : extn.length ≠ 0 := fun hh => hx.1 (List.length_eq_zero.mp hh)
  have hf : goodFile f := hb.2.2 f (by rw [hbf]; exact List.mem_cons_self f fs')
  have hstream : posState (.inside extn dir [] (b :: bs) gs) trailing B h =
      ⟨0 :: (b.dir ++ 0 :: (f.name ++ 0 :: (encEntry f ++
          (posBytes (.inside extn b.dir fs' bs gs) ++ trailing)))),
       extn ++ dir, extn.length, dir.length, B, h⟩ := by
    simp [posState, posBytes, posBuf, posELen, posDLen, encBlock, hbf, encFile,
          List.append_assoc]
  have hlen : (posBytes (.inside extn dir [] (b :: bs) gs)).length
      = 1 + b.dir.length + 1 + f.name.length + 1 + f.preload.length + 18
        + (posBytes (.inside extn b.dir fs' bs gs)).length := by
    simp [posBytes, encBlock, hbf, encFile, encEntry_length]
    omega
  have hpos' := posBytes_pos (.inside extn b.dir fs' bs gs)
  rw [hstream]
  rw [next_inr _ _ (nextStep_pop_dir _ (extn ++ dir)
        extn.length dir.length B h hdl (by omega))]
  have htake : ((extn ++ dir) ++ [0]).take extn.length = extn := by
    rw [List.append_assoc]
    exact List.take_left extn (dir ++ [0])
  rw [htake]
  rw [next_inr _ _ (nextStep_capture_dir b.dir _ extn extn.length
        (B + 1) h hb.1.1 hb.1.2.1 hel (by omega))]
  rw [next_record_enc extn b.dir f _ (B + 1 + (b.dir.length + 1)) h hx hb.1 hf
        (by omega)]
  simp [posState, posBuf, posELen, posDLen]

/-- Pulling inside a block when the whole group is exhausted but more groups
remain: pop directory and extension, capture the next group's extension and
first directory, produce its first file's record. -/
theorem pull_inside_newgroup (extn dir : List Nat) (g : ExtGroup)
    (b : DirBlock) (bs' : List DirBlock) (f : FileEnc) (fs' : List FileEnc)
    (gs' : List ExtGroup) (trailing : List Nat) (B : Nat) (h : DirHeader)
    (hx : goodToken extn) (hd : goodToken dir) (hg : goodGroup g)
    (hgd : g.dirs = b :: bs') (hbf : b.files = f :: fs')
    (hB : B + (posBytes (.inside extn dir [] [] (g :: gs'))).length
            = h.tree_size) :
    next (posState (.inside extn dir [] [] (g :: gs')) trailing B h) =
      (.ok (mkEntry g.extn b.dir f),
       posState (.inside g.extn b.dir fs' bs' gs') trailing
         (B + 1 + 1 + (g.extn.length + 1) + (b.dir.length + 1)
            + (f.name.length + 1) + (f.preload.length + 18)) h) := by
  have hdl : 0 < dir.length := List.length_pos.mpr hd.1
  have hel : 0 < extn.length := List.length_pos.mpr hx.1
  have hb : goodBlock b := hg.2.2 b (by rw [hgd]; exact List.mem_cons_self b bs')
  have hf : goodFile f := hb.2.2 f (by rw [hbf]; exact List.mem_cons_self f fs')
  have hgel : g.extn.length ≠ 0 := fun hh => hg.1.1 (List.length_eq_zero.mp hh)
  have hstream : posState (.inside extn dir [] [] (g :: gs')) trailing B h =
      ⟨0 :: 0 :: (g.extn ++ 0 :: (b.dir ++ 0 :: (f.name ++ 0 :: (encEntry f ++
          (posBytes (.inside g.extn b.dir fs' bs' gs') ++ trailing))))),
       extn ++ dir, extn.length, dir.length, B, h⟩ := by
    simp [posState, posBytes, posBuf, posELen, posDLen, encGroup, hgd,
          encBlock, hbf, encFile, List.append_assoc]
  have hlen : (posBytes (.inside extn dir [] [] (g :: gs'))).length
      = 1 + 1 + g.extn.length + 1 + b.dir.length + 1 + f.name.length + 1
        + f.preload.length + 18
        + (posBytes (.inside g.extn b.dir fs' bs' gs')).length := by
    simp [posBytes, encGroup, hgd, encBlock, hbf, encFile, encEntry_length]
    omega
  have hpos' := posBytes_pos (.inside g.extn b.dir fs' bs' gs')
  rw [hstream]
  rw [next_inr _ _ (nextStep_pop_dir _ (extn ++ dir)
        extn.length dir.length B h hdl (by omega))]
  have htake : ((extn ++ dir) ++ [0]).take extn.length = extn := by
    rw [List.append_assoc]
    exact List.take_left extn (dir ++ [0])
  rw [htake]
  rw [next_inr _ _ (nextStep_pop_extn _ extn extn.length (B + 1) h hel
        (by omega))]
  rw [next_inr _ _ (nextStep_capture_extn g.extn _ [] 0 (B + 1 + 1) h
        hg.1.1 hg.1.2.1 (by omega))]
  rw [show ([] : List Nat) ++ g.extn = g.extn from List.nil_append g.extn]
  rw [next_inr _ _ (nextStep_capture_dir b.dir _ g.extn g.extn.length
        (B + 1 + 1 + (g.extn.length + 1)) h hb.1.1 hb.1.2.1 hgel (by omega))]
  rw [next_record_enc g.extn b.dir f _
        (B + 1 + 1 + (g.extn.length + 1) + (b.dir.length + 1)) h hg.1 hb.1 hf
        (by omega)]
  simp [posState, posBuf, posELen, posDLen]

/-- Pulling at the top level with a group remaining: capture its extension
and first directory, produce its first file's record. -/
theorem pull_top_cons (g : ExtGroup) (b : DirBlock) (bs' : List DirBlock)
    (f : FileEnc) (fs' : List FileEnc) (gs' : List ExtGroup)
    (trailing : List Nat) (B : Nat) (h : DirHeader)
    (hg : goodGroup g) (hgd : g.dirs = b :: bs') (hbf : b.files = f :: fs')
    (hB : B + (posBytes (.top (g :: gs'))).length = h.tree_size) :
    next (posState (.top (g :: gs')) trailing B h) =
      (.ok (mkEntry g.extn b.dir f),
       posState (.inside g.extn b.dir fs' bs' gs') trailing
         (B + (g.extn.length + 1) + (b.dir.length + 1)
            + (f.name.length + 1) + (f.preload.length + 18)) h) := by
  have hb : goodBlock b := hg.2.2 b (by rw [hgd]; exact List.mem_cons_self b bs')
  have hf : goodFile f := hb.2.2 f (by rw [hbf]; exact List.mem_cons_self f fs')
  have hgel : g.extn.length ≠ 0 := fun hh => hg.1.1 (List.length_eq_zero.mp hh)
  have hstream : posState (.top (g :: gs')) trailing B h =
      ⟨g.extn ++ 0 :: (b.dir ++ 0 :: (f.name ++ 0 :: (encEntry f ++
          (posBytes (.inside g.extn b.dir fs' bs' gs') ++ trailing)))),
       [], 0, 0, B, h⟩ := by
    simp [posState, posBytes, posBuf, posELen, posDLen, encGroup, hgd,
          encBlock, hbf, encFile, List.append_assoc]
  have hlen : (posBytes (.top (g :: gs'))).length
      = g.extn.length + 1 + b.dir.length + 1 + f.name.length + 1
        + f.preload.length + 18
        + (posBytes (.inside g.extn b.dir fs' bs' gs')).length := by
    simp [posBytes, encGroup, hgd, encBlock, hbf, encFile, encEntry_length]
    omega
  have hpos' := posBytes_pos (.inside g.extn b.dir fs' bs' gs')
  rw [hstream]
  rw [next_inr _ _ (nextStep_capture_extn g.extn _ [] 0 B h
        hg.1.1 hg.1.2.1 (by omega))]
  rw [show ([] : List Nat) ++ g.extn = g.extn from List.nil_append g.extn]
  rw [next_inr _ _ (nextStep_capture_dir b.dir _ g.extn g.extn.length
        (B + (g.extn.length + 1)) h hb.1.1 hb.1.2.1 hgel (by omega))]
  rw [next_record_enc g.extn b.dir f _
        (B + (g.extn.length + 1) + (b.dir.length + 1)) h hg.1 hb.1 hf
        (by omega)]
  simp [posState, posBuf, posELen, posDLen]

/-! ## Iterating a well-formed tree to completion -/

theorem expBlockRecords_ne_nil (extn : List Nat) (b : DirBlock)
    (hb : goodBlock b) : expBlockRecords extn b ≠ [] := by
  simp [expBlockRecords, hb.2.1]

theorem expGroupRecords_ne_nil (g : ExtGroup) (hg : goodGroup g) :
    expGroupRecords g ≠ [] := by
  obtain ⟨_, hdne, hbs⟩ := hg
  obtain ⟨b, bs, hbEq⟩ := List.exists_cons_of_ne_nil hdne
  have hb := hbs b (by rw [hbEq]; exact List.mem_cons_self b bs)
  obtain ⟨f, fs, hfEq⟩ := List.exists_cons_of_ne_nil hb.2.1
  simp [expGroupRecords, hbEq, expBlockRecords, hfEq]

theorem runN_succ (s s' : DirReader) (r : NextRes) (n : Nat)
    (hnext : next s = (r, s')) :
    runN s (n + 1) = (r :: (runN s' n).1, (runN s' n).2) := by
  simp [runN, hnext]

/-- Pulling `n + 1` times from a well-formed position with `n` records left
yields exactly those records followed by end of sequence, leaving the stream
at the trailing bytes with `tree_size` bytes counted. -/
theorem runN_pos : ∀ (n : Nat) (p : Pos) (trailing : List Nat) (B : Nat)
    (h : DirHeader), posGood p →
    B + (posBytes p).length = h.tree_size →
    (posRecords p).length = n →
    runN (posState p trailing B h) (n + 1) =
      ((posRecords p).map NextRes.ok ++ [NextRes.eos],
       ⟨trailing, [0], 0, 0, h.tree_size, h⟩) := by
  intro n
  induction n with
  | zero =>
    intro p trailing B h hg hB hn
    have hrec : posRecords p = [] := List.length_eq_zero.mp hn
    cases p with
    | top gs =>
      cases gs with
      | nil =>
        have hB1 : B + 1 = h.tree_size := by simpa [posBytes] using hB
        rw [runN_succ _ _ _ _ (pull_top_nil trailing B h hB1)]
        simp [hrec, runN]
      | cons g gs' =>
        exfalso
        have hgg : goodGroup g := hg g (List.mem_cons_self g gs')
        have hne := expGroupRecords_ne_nil g hgg
        simp only [posRecords, List.map_cons, List.flatten_cons,
                   List.append_eq_nil] at hrec
        exact hne hrec.1
    | inside extn dir fs bs gs =>
      obtain ⟨hx, hd, hfs, hbs, hgs⟩ := hg
      rcases fs with _ | ⟨f, fs'⟩
      · rcases bs with _ | ⟨b, bs'⟩
        · rcases gs with _ | ⟨g, gs'⟩
          · have hB3 : B + 3 = h.tree_size := by simpa [posBytes] using hB
            rw [runN_succ _ _ _ _
                  (pull_inside_end extn dir trailing B h hx.1 hd.1 hB3)]
            simp [hrec, runN]
          · exfalso
            have hgg : goodGroup g := hgs g (List.mem_cons_self g gs')
            have hne := expGroupRecords_ne_nil g hgg
            simp only [posRecords, List.map_nil, List.flatten_nil,
                       List.map_cons, List.flatten_cons, List.nil_append,
                       List.append_eq_nil] at hrec
            exact hne hrec.1
        · exfalso
          have hbb : goodBlock b := hbs b (List.mem_cons_self b bs')
          have hne := expBlockRecords_ne_nil extn b hbb
          simp only [posRecords, List.map_nil, List.flatten_nil,
                     List.map_cons, List.flatten_cons, List.nil_append,
                     List.append_eq_nil] at hrec
          exact hne hrec.1.1
      · exfalso
        simp [posRecords] at hrec
  | succ n ih =>
    intro p trailing B h hg hB hn
    cases p with
    | top gs =>
      rcases gs with _ | ⟨g, gs'⟩
      · simp [posRecords] at hn
      · have hgg : goodGroup g := hg g (List.mem_cons_self g gs')
        obtain ⟨b, bs', hgd⟩ := List.exists_cons_of_ne_nil hgg.2.1
        have hbb : goodBlock b :=
          hgg.2.2 b (by rw [hgd]; exact List.mem_cons_self b bs')
        obtain ⟨f, fs', hbf⟩ := List.exists_cons_of_ne_nil hbb.2.1
        have hrec : posRecords (.top (g :: gs')) =
            mkEntry g.extn b.dir f ::
              posRecords (.inside g.extn b.dir fs' bs' gs') := by
          simp [posRecords, expGroupRecords, hgd, expBlockRecords, hbf]
        have hg' : posGood (.inside g.extn b.dir fs' bs' gs') :=
          ⟨hgg.1, hbb.1,
           fun f' hf' => hbb.2.2 f' (by rw [hbf]; exact List.mem_cons_of_mem f hf'),
           fun b' hb' => hgg.2.2 b' (by rw [hgd]; exact List.mem_cons_of_mem b hb'),
           fun g' hg2 => hg g' (List.mem_cons_of_mem g hg2)⟩
        have hlen : (posBytes (.top (g :: gs'))).length
            = g.extn.length + 1 + b.dir.length + 1 + f.name.length + 1
              + f.preload.length + 18
              + (posBytes (.inside g.extn b.dir fs' bs' gs')).length := by
          simp [posBytes, encGroup, hgd, encBlock, hbf, encFile,
                encEntry_length]
          omega
        have hB' : (B + (g.extn.length + 1) + (b.dir.length + 1)
            + (f.name.length + 1) + (f.preload.length + 18))
            + (posBytes (.inside g.extn b.dir fs' bs' gs')).length
            = h.tree_size := by omega
        have hn' : (posRecords (.inside g.extn b.dir fs' bs' gs')).length
            = n := by
          rw [hrec] at hn
          simpa using hn
        rw [runN_succ _ _ _ _
              (pull_top_cons g b bs' f fs' gs' trailing B h hgg hgd hbf hB)]
        rw [ih _ trailing _ h hg' hB' hn', hrec]
        simp
    | inside extn dir fs bs gs =>
      obtain ⟨hx, hd, hfs, hbs, hgs⟩ := hg
      rcases fs with _ | ⟨f, fs'⟩
      · rcases bs with _ | ⟨b, bs'⟩
        · rcases gs with _ | ⟨g, gs'⟩
          · simp [posRecords] at hn
          · have hgg : goodGroup g := hgs g (List.mem_cons_self g gs')
            obtain ⟨b, bs', hgd⟩ := List.exists_cons_of_ne_nil hgg.2.1
            have hbb : goodBlock b :=
              hgg.2.2 b (by rw [hgd]; exact List.mem_cons_self b bs')
            obtain ⟨f, fs', hbf⟩ := List.exists_cons_of_ne_nil hbb.2.1
            have hrec : posRecords (.inside extn dir [] [] (g :: gs')) =
                mkEntry g.extn b.dir f ::
                  posRecords (.inside g.extn b.dir fs' bs' gs') := by
              simp [posRecords, expGroupRecords, hgd, expBlockRecords, hbf]
            have hg' : posGood (.inside g.extn b.dir fs' bs' gs') :=
              ⟨hgg.1, hbb.1,
               fun f' hf' => hbb.2.2 f' (by rw [hbf]; exact List.mem_cons_of_mem f hf'),
               fun b' hb' => hgg.2.2 b' (by rw [hgd]; exact List.mem_cons_of_mem b hb'),
               fun g' hg2 => hgs g' (List.mem_cons_of_mem g hg2)⟩
            have hlen : (posBytes (.inside extn dir [] [] (g :: gs'))).length
                = 1 + 1 + g.extn.length + 1 + b.dir.length + 1
                  + f.name.length + 1 + f.preload.length + 18
                  + (posBytes (.inside g.extn b.dir fs' bs' gs')).length := by
              simp [posBytes, encGroup, hgd, encBlock, hbf, encFile,
                    encEntry_length]
              omega
            have hB' : (B + 1 + 1 + (g.extn.length + 1) + (b.dir.length + 1)
                + (f.name.length + 1) + (f.preload.length + 18))
                + (posBytes (.inside g.extn b.dir fs' bs' gs')).length
                = h.tree_size := by omega
            have hn' : (posRecords (.inside g.extn b.dir fs' bs' gs')).length
                = n := by
              rw [hrec] at hn
              simpa using hn
            rw [runN_succ _ _ _ _
                  (pull_inside_newgroup extn dir g b bs' f fs' gs' trailing B h
                    hx hd hgg hgd hbf hB)]
            rw [ih _ trailing _ h hg' hB' hn', hrec]
            simp
        · have hbb : goodBlock b := hbs b (List.mem_cons_self b bs')
          obtain ⟨f, fs', hbf⟩ := List.exists_cons_of_ne_nil hbb.2.1
          have hrec : posRecords (.inside extn dir [] (b :: bs') gs) =
              mkEntry extn b.dir f ::
                posRecords (.inside extn b.dir fs' bs' gs) := by
            simp [posRecords, expBlockRecords, hbf]
          have hg' : posGood (.inside extn b.dir fs' bs' gs) :=
            ⟨hx, hbb.1,
             fun f' hf' => hbb.2.2 f' (by rw [hbf]; exact List.mem_cons_of_mem f hf'),
             fun b' hb' => hbs b' (List.mem_cons_of_mem b hb'),
             hgs⟩
          have hlen : (posBytes (.inside extn dir [] (b :: bs') gs)).length
              = 1 + b.dir.length + 1 + f.name.length + 1
                + f.preload.length + 18
                + (posBytes (.inside extn b.dir fs' bs' gs)).length := by
            simp [posBytes, encBlock, hbf, encFile, encEntry_length]
            omega
          have hB' : (B + 1 + (b.dir.length + 1) + (f.name.length + 1)
              + (f.preload.length + 18))
              + (posBytes (.inside extn b.dir fs' bs' gs)).length
              = h.tree_size := by omega
          have hn' : (posRecords (.inside extn b.dir fs' bs' gs)).length
              = n := by
            rw [hrec] at hn
            simpa using hn
          rw [runN_succ _ _ _ _
                (pull_inside_newblock extn dir b f fs' bs' gs trailing B h
                  hx hd hbb hbf hB)]
          rw [ih _ trailing _ h hg' hB' hn', hrec]
          simp
      · have hf : goodFile f := hfs f (List.mem_cons_self f fs')
        have hrec : posRecords (.inside extn dir (f :: fs') bs gs) =
            mkEntry extn dir f :: posRecords (.inside extn dir fs' bs gs) := by
          simp [posRecords]
        have hg' : posGood (.inside extn dir fs' bs gs) :=
          ⟨hx, hd, fun f' hf' => hfs f' (List.mem_cons_of_mem f hf'), hbs, hgs⟩
        have hlen : (posBytes (.inside extn dir (f :: fs') bs gs)).length
            = f.name.length + 1 + f.preload.length + 18
              + (posBytes (.inside extn dir fs' bs gs)).length := by
          simp [posBytes, encFile, encEntry_length]
          omega
        have hB' : (B + (f.name.length + 1) + (f.preload.length + 18))
            + (posBytes (.inside extn dir fs' bs gs)).length
            = h.tree_size := by omega
        have hn' : (posRecords (.inside extn dir fs' bs gs)).length = n := by
          rw [hrec] at hn
          simpa using hn
        rw [runN_succ _ _ _ _
              (pull_inside_file extn dir f fs' bs gs trailing B h hx hd hf hB)]
        rw [ih _ trailing _ h hg' hB' hn', hrec]
        simp

/-! ## Decode-result lemmas and header construction -/

/-- A successfully decoded entry record carries the path it was given. -/
theorem readDirEntry_ok_file (fp s0 : List Nat) (e : DirEntry)
    (hok : (readDirEntry fp s0).1 = .ok e) : e.file = fp := by
  unfold readDirEntry at hok
  repeat' split at hok
  all_goals simp_all
  all_goals (rw [← hok])

/-- A successfully decoded entry record's archive index comes from bytes 6
and 7 of the record: 0x7fff becomes `none`, anything else is kept. -/
theorem readDirEntry_archive (fp : List Nat)
    (c0 c1 c2 c3 p0 p1 a0 a1 : Nat) (rest : List Nat) (e : DirEntry)
    (hok : (readDirEntry fp
      (c0::c1::c2::c3::p0::p1::a0::a1::rest)).1 = .ok e) :
    e.archive_index =
      if a0 + 256 * a1 = 0x7fff then none else some (a0 + 256 * a1) := by
  unfold readDirEntry at hok
  simp only [readU32, readU16] at hok
  repeat' split at hok
  all_goals simp_all
  all_goals (rw [← hok])

/-- An entry record whose terminator field is not 0xffff decodes to the
structural-mismatch error carrying that value. -/
theorem readDirEntry_bad_term (fp : List Nat)
    (c0 c1 c2 c3 p0 p1 a0 a1 o0 o1 o2 o3 l0 l1 l2 l3 t0 t1 : Nat)
    (rest : List Nat) (ht : t0 + 256 * t1 ≠ 0xffff) :
    readDirEntry fp (c0::c1::c2::c3::p0::p1::a0::a1::o0::o1::o2::o3::
        l0::l1::l2::l3::t0::t1::rest) =
      (.error (.badTerminator (t0 + 256 * t1)), rest, 0) := by
  simp [readDirEntry, readU32, readU16, ht]

/-- `new` on a version-1 header followed by anything. -/
theorem new_headerV1 (n : Nat) (rest : List Nat) (hn : n < 4294967296) :
    new (headerV1 n ++ rest) = (.ok ⟨rest, [], 0, 0, 0, ⟨n, none⟩⟩, rest) := by
  have h1 : headerV1 n ++ rest =
      u32bytes 0x55aa1234 ++ (u32bytes 1 ++ (u32bytes n ++ rest)) := by
    simp [headerV1, List.append_assoc]
  simp only [new, h1, readU32_bytes 0x55aa1234 _ (by norm_num),
             readU32_bytes 1 _ (by norm_num), readU32_bytes n _ hn]
  simp

/-- Once `bytes_read` equals `tree_size`, a pull reads one more token but
returns end of sequence without counting it. -/
theorem next_boundary (s : DirReader)
    (hb : s.bytes_read = s.header.tree_size) :
    next s = (.eos, { s with stream := (readUntilZero s.stream).2,
                             path_buf := s.path_buf ++ (readUntilZero s.stream).1 }) := by
  apply next_inl
  simp only [nextStep, if_pos hb]

/-! ## Claim theorems -/

/-- Claim C8: for every reader, `data_offset()` equals the header byte
length — 12 for a version-1 header, 28 for a version-2 header — plus
`tree_size()`; the accessor is a function of the decoded header alone and
performs no stream access. -/
theorem C8_data_offset (s : DirReader) :
    s.data_offset = (if s.header.header_v2.isSome then 28 else 12)
      + s.tree_size := by
  unfold DirReader.data_offset
  by_cases hv : s.header.header_v2.isSome <;> simp [hv]

/-- Claim C7: when the first four bytes of the input, read as a little-endian
u32, are not 0x55aa1234, construction fails with the invalid-signature error,
produces no reader, and has consumed exactly those 4 bytes — none of the
tree section. -/
theorem C7_bad_magic (stream : List Nat) (v : Nat) (rest : List Nat)
    (hr : readU32 stream = .ok (v, rest)) (hv : v ≠ 0x55aa1234) :
    new stream = (.error (.invalidSignature v), rest) ∧
    rest.length + 4 = stream.length := by
  constructor
  · simp [new, hr, hv]
  · rcases stream with _ | ⟨a, _ | ⟨b, _ | ⟨c, _ | ⟨d, s⟩⟩⟩⟩ <;>
      simp [readU32] at hr
    simp [hr.2]

/-- Witness for C7: an all-zero signature is rejected after 4 bytes. -/
theorem C7_bad_magic_witness :
    readU32 [0, 0, 0, 0, 9] = .ok (0, [9]) ∧ (0 : Nat) ≠ 0x55aa1234 ∧
    (new [0, 0, 0, 0, 9] = (.error (.invalidSignature 0), [9]) ∧
     ([9] : List Nat).length + 4 = ([0, 0, 0, 0, 9] : List Nat).length) :=
  ⟨by decide, by decide,
   C7_bad_magic [0, 0, 0, 0, 9] 0 [9] (by decide) (by decide)⟩

/-- Claim C1 counterexample: `tree_size = 2`, but the stream continues with
`[97, 98, 99, 0]`.  The very first pull consumes all four remaining stream
bytes — two of them beyond the tree-section boundary — and even counts
`bytes_read = 4 > 2`; it does not stop at the boundary. -/
theorem C1_counterexample :
    (new c1stream).1 = .ok c1s0 ∧ c1s0.header.tree_size = 2 ∧
    c1s0.stream.length = 4 ∧ (next c1s0).2.stream = [] ∧
    (next c1s0).2.bytes_read = 4 := by decide

/-- Claim C1 amended: what the tree-size bound really guarantees is about
the byte count, not the stream position — a pull that starts with exactly
`tree_size` bytes counted returns end of sequence and counts no further
bytes (though it still reads one token from the stream first, and a token
straddling the boundary is consumed whole). -/
theorem C1_boundary_pull (s : DirReader)
    (hb : s.bytes_read = s.header.tree_size) :
    (next s).1 = .eos ∧ (next s).2.bytes_read = s.header.tree_size := by
  rw [next_boundary s hb]
  exact ⟨rfl, hb⟩

/-- Witness for the amended C1 at a concrete boundary state. -/
theorem C1_boundary_pull_witness :
    cBoundaryA.bytes_read = cBoundaryA.header.tree_size ∧
    ((next cBoundaryA).1 = .eos ∧
     (next cBoundaryA).2.bytes_read = cBoundaryA.header.tree_size) :=
  ⟨by decide, C1_boundary_pull cBoundaryA (by decide)⟩

/-- Claim C6 counterexample: the tree section opens with the final
terminator, so the first pull reports end of sequence, but the second pull
resumes parsing and yields a `FileRecord`. -/
theorem C6_counterexample :
    (new c6stream).1 = .ok c6s0 ∧ (next c6s0).1 = .eos ∧
    (next (next c6s0).2).1 = .ok c6rec := by decide

/-- Claim C6 amended: end of sequence is sticky exactly when it is produced
with `bytes_read = tree_size` (as at the end of a well-formed tree): from
such a state every further pull signals end of sequence and never a record.
An end of sequence produced early (before `tree_size` bytes) is not
sticky. -/
theorem C6_sticky_eos_at_boundary (s : DirReader) (n : Nat)
    (hb : s.bytes_read = s.header.tree_size) :
    (runN s n).1 = List.replicate n NextRes.eos := by
  induction n generalizing s with
  | zero => simp [runN]
  | succ m ih =>
    rw [runN_succ _ _ _ _ (next_boundary s hb)]
    rw [List.replicate_succ]
    simp only [List.cons.injEq]
    exact ⟨trivial, ih _ hb⟩

/-- Witness for the amended C6: three pulls at a boundary state all signal
end of sequence. -/
theorem C6_sticky_eos_witness :
    cBoundaryB.bytes_read = cBoundaryB.header.tree_size ∧
    (runN cBoundaryB 3).1 = List.replicate 3 NextRes.eos :=
  ⟨by decide, C6_sticky_eos_at_boundary cBoundaryB 3 (by decide)⟩

/-- Claim C4 counterexample: a tree whose extension, directory and name
tokens are all the placeholder `" "` decodes successfully to a record whose
path is the empty string. -/
theorem C4_counterexample :
    (new c4stream).1 = .ok c4s0 ∧ (next c4s0).1 = .ok c4rec ∧
    c4rec.file = [] := by decide

/-- Claim C4 amended: the produced path is empty exactly when all three of
the extension, directory and name tokens equal the placeholder `" "`; with
any other combination of tokens it is non-empty. -/
theorem C4_nonempty_path (extn dir name : List Nat)
    (hx : extn ≠ []) (hd : dir ≠ []) (hn : name ≠ []) :
    buildPath extn dir name = [] ↔
      (extn = [32] ∧ dir = [32] ∧ name = [32]) := by
  unfold buildPath
  by_cases h1 : dir = [32] <;> by_cases h2 : name = [32] <;>
    by_cases h3 : extn = [32] <;> simp [h1, h2, h3, hx, hd, hn]

/-- Witness for the amended C4 on the "readme.txt" tokens. -/
theorem C4_nonempty_path_witness :
    (asciiBytes "txt" ≠ [] ∧ asciiBytes " " ≠ [] ∧
     asciiBytes "readme" ≠ []) ∧
    (buildPath (asciiBytes "txt") (asciiBytes " ") (asciiBytes "readme") = []
      ↔ (asciiBytes "txt" = [32] ∧ asciiBytes " " = [32] ∧
         asciiBytes "readme" = [32])) :=
  ⟨⟨by decide, by decide, by decide⟩,
   C4_nonempty_path (asciiBytes "txt") (asciiBytes " ") (asciiBytes "readme")
     (by decide) (by decide) (by decide)⟩

/-- Claim C10 evaluation at the failing input: the token buffer
`[0xC3, 0xA9, 0x78]` passes the whole-buffer UTF-8 check, yet the
extension/directory cut at byte index 1 is not a character boundary, so the
pull aborts with a Rust string-slice panic instead of returning an error. -/
theorem C10_slice_panic :
    (new c10stream).1 = .ok c10s0 ∧
    validUtf8 [0xC3, 0xA9, 0x78] = true ∧
    isCharBoundary [0xC3, 0xA9, 0x78] 1 = false ∧
    (next c10s0).1 = .panicked := by decide

/-- The imperative push sequence builds exactly the spec's join grammar. -/
theorem buildPath_eq_specJoin (extn dir name : List Nat) :
    buildPath extn dir name = specJoin extn dir name := by
  unfold buildPath specJoin
  by_cases h1 : dir = [32] <;> by_cases h2 : name = [32] <;>
    by_cases h3 : extn = [32] <;> simp [h1, h2, h3]

/-- Claim C3: every record produced from captured extension, directory and
name tokens carries the path given by the spec's join grammar
`(dir ≠ " " ? dir + "/" : "") + (name ≠ " " ? name : "")
 + (extn ≠ " " ? "." + extn : "")`; in particular the tokens
("txt", " ", "readme") give "readme.txt" and ("bsp", "maps", "de_test")
give "maps/de_test.bsp". -/
theorem C3_path_join :
    (∀ (extn dir name σ : List Nat) (B : Nat) (h : DirHeader)
       (e : DirEntry) (s' : DirReader),
       goodToken extn → goodToken dir → goodToken name → B ≠ h.tree_size →
       next ⟨name ++ 0 :: σ, extn ++ dir, extn.length, dir.length, B, h⟩
         = (.ok e, s') →
       e.file = specJoin extn dir name) ∧
    buildPath (asciiBytes "txt") (asciiBytes " ") (asciiBytes "readme")
      = asciiBytes "readme.txt" ∧
    buildPath (asciiBytes "bsp") (asciiBytes "maps") (asciiBytes "de_test")
      = asciiBytes "maps/de_test.bsp" := by
  refine ⟨?_, by decide, by decide⟩
  intro extn dir name σ B h e s' hx hd hn hB hnext
  rw [next_record extn dir name σ B h hx hd hn hB] at hnext
  rcases hE : readDirEntry (buildPath extn dir name) σ with ⟨res, rest', cnt⟩
  rw [hE] at hnext
  cases res with
  | error er => simp at hnext
  | ok entry =>
    simp only [Prod.mk.injEq, NextRes.ok.injEq] at hnext
    have hfile : entry.file = buildPath extn dir name :=
      readDirEntry_ok_file _ σ entry (by rw [hE])
    rw [← hnext.1, hfile]
    exact buildPath_eq_specJoin extn dir name

/-- Witness for C3: pulling the "maps/de_test.bsp" record concretely. -/
theorem C3_path_join_witness :
    c3rec.file = specJoin (asciiBytes "bsp") (asciiBytes "maps")
      (asciiBytes "de_test") :=
  C3_path_join.1 (asciiBytes "bsp") (asciiBytes "maps")
    (asciiBytes "de_test") entryOkBytes 0 ⟨999, none⟩ c3rec c3end
    (by decide) (by decide) (by decide) (by decide) (by decide)

/-- Claim C5: a pull that decodes an entry record whose 2-byte terminator
field is not 0xffff returns the structural-mismatch decode error carrying
the unexpected value, and no `FileRecord`. -/
theorem C5_bad_terminator (extn dir name : List Nat) (B : Nat) (h : DirHeader)
    (c0 c1 c2 c3 p0 p1 a0 a1 o0 o1 o2 o3 l0 l1 l2 l3 t0 t1 : Nat)
    (rest : List Nat)
    (hx : goodToken extn) (hd : goodToken dir) (hn : goodToken name)
    (hB : B ≠ h.tree_size) (ht : t0 + 256 * t1 ≠ 0xffff) :
    (next ⟨name ++ 0 :: (c0::c1::c2::c3::p0::p1::a0::a1::o0::o1::o2::o3::
             l0::l1::l2::l3::t0::t1::rest),
           extn ++ dir, extn.length, dir.length, B, h⟩).1
      = .err (.badTerminator (t0 + 256 * t1)) := by
  rw [next_record extn dir name _ B h hx hd hn hB,
      readDirEntry_bad_term _ c0 c1 c2 c3 p0 p1 a0 a1 o0 o1 o2 o3
        l0 l1 l2 l3 t0 t1 rest ht]

/-- Witness for C5 with terminator bytes 0x34 0x12, i.e. the value 0x1234. -/
theorem C5_bad_terminator_witness :
    (next ⟨[101] ++ 0 ::
             (0::0::0::0::0::0::0::0::0::0::0::0::0::0::0::0::0x34::0x12::[]),
           [116] ++ [100], [116].length, [100].length, 0, ⟨77, none⟩⟩).1
      = .err (.badTerminator (0x34 + 256 * 0x12)) :=
  C5_bad_terminator [116] [100] [101] 0 ⟨77, none⟩
    0 0 0 0 0 0 0 0 0 0 0 0 0 0 0 0 0x34 0x12 []
    (by decide) (by decide) (by decide) (by decide) (by decide)

/-- Claim C9: a decoded entry record whose archive-index field (bytes 6 and
7 of the record) equals 0x7fff yields `archive_index = none`; any other
value is kept verbatim. -/
theorem C9_archive_index (fp : List Nat)
    (c0 c1 c2 c3 p0 p1 a0 a1 : Nat) (rest : List Nat) (e : DirEntry)
    (hok : (readDirEntry fp
      (c0::c1::c2::c3::p0::p1::a0::a1::rest)).1 = .ok e) :
    e.archive_index =
      if a0 + 256 * a1 = 0x7fff then none else some (a0 + 256 * a1) :=
  readDirEntry_archive fp c0 c1 c2 c3 p0 p1 a0 a1 rest e hok

/-- Witness for C9 at archive index 5. -/
theorem C9_archive_index_witness :
    (readDirEntry [] c9bytes).1 = .ok c9rec ∧
    c9rec.archive_index =
      if (5 + 256 * 0 : Nat) = 0x7fff then none else some (5 + 256 * 0) :=
  ⟨by decide,
   C9_archive_index [] 7 0 0 0 0 0 5 0 [0,0,0,0, 0,0,0,0, 0xff,0xff] c9rec
     (by decide)⟩

/-- Claim C2: for every well-formed synthetic tree (section 6 grammar) laid
out after a version-1 header, with arbitrary trailing bytes, construction
succeeds and `numFiles + 1` pulls yield exactly the tree's records in
on-disk order followed by end of sequence; afterwards the stream sits
exactly at the trailing bytes and `bytes_read = tree_size`. -/
theorem C2_tree_roundtrip (t : List ExtGroup) (trailing : List Nat)
    (hwf : goodTree t) (hsz : (encTree t).length < 4294967296) :
    (new (headerV1 (encTree t).length ++ (encTree t ++ trailing))).1
        = .ok ⟨encTree t ++ trailing, [], 0, 0, 0,
               ⟨(encTree t).length, none⟩⟩ ∧
    runN ⟨encTree t ++ trailing, [], 0, 0, 0, ⟨(encTree t).length, none⟩⟩
        (numFiles t + 1)
      = ((expectedRecords t).map NextRes.ok ++ [NextRes.eos],
         ⟨trailing, [0], 0, 0, (encTree t).length,
          ⟨(encTree t).length, none⟩⟩) := by
  constructor
  · rw [new_headerV1 _ _ hsz]
  · have hstate : (⟨encTree t ++ trailing, [], 0, 0, 0,
        ⟨(encTree t).length, none⟩⟩ : DirReader)
        = posState (.top t) trailing 0 ⟨(encTree t).length, none⟩ := by
      simp [posState, posBytes, posBuf, posELen, posDLen, encTree,
            List.append_assoc]
    rw [hstate]
    have h1 : posGood (.top t) := hwf
    have h2 : (0 : Nat) + (posBytes (.top t)).length
        = (⟨(encTree t).length, none⟩ : DirHeader).tree_size := by
      simp [posBytes, encTree]
    have h3 : (posRecords (.top t)).length = numFiles t := rfl
    have hmain := runN_pos (numFiles t) (.top t) trailing 0
      ⟨(encTree t).length, none⟩ h1 h2 h3
    simpa [posRecords, expectedRecords] using hmain

/-- Witness for C2 on a two-group, two-directory tree with two files. -/
theorem C2_tree_roundtrip_witness :
    goodTree sampleTree ∧ (encTree sampleTree).length < 4294967296 ∧
    ((new (headerV1 (encTree sampleTree).length
          ++ (encTree sampleTree ++ []))).1
        = .ok ⟨encTree sampleTree ++ [], [], 0, 0, 0,
               ⟨(encTree sampleTree).length, none⟩⟩ ∧
     runN ⟨encTree sampleTree ++ [], [], 0, 0, 0,
           ⟨(encTree sampleTree).length, none⟩⟩ (numFiles sampleTree + 1)
       = ((expectedRecords sampleTree).map NextRes.ok ++ [NextRes.eos],
          ⟨[], [0], 0, 0, (encTree sampleTree).length,
           ⟨(encTree sampleTree).length, none⟩⟩)) :=
  ⟨by decide, by decide, C2_tree_roundtrip sampleTree [] (by decide) (by decide)⟩
